import Mathlib

/-!
Verification of the Miden assembler front end: AST construction limits,
serialization and deserialization of `ProgramAst`, `ModuleAst` and
`ProcedureAst`, constant-value parsing, procedure scope rules, call sets,
procedure ordering, and `Dyn` block hashing.

The Rust sources embedded here are `assembly/src/parsers/mod.rs`,
`assembly/src/procedures/mod.rs` and `core/src/program/blocks/dyn_block.rs`.
Machine integers are modelled as `Nat` with explicit `% 2^w` at the points
where the source casts (`as u16`, `as u8`); byte streams are `List Nat`;
fallible operations return `Except`.
-/

namespace MidenVM

/-- A byte string: strings and labels are modelled as their byte sequences. -/
abbrev ByteStr := List Nat

-- BYTE WRITERS
-- The source uses the `ByteWriter` trait (`write_u8`, `write_u16`,
-- `write_bool`, `write_bytes`); integers are written little-endian.
-- The source asserts a bound and then casts with `as u16`/`as u8`; the cast
-- truncates, which is the `%` below. Theorems carry the asserted bound as a
-- hypothesis so that the panic path of the assert is never reachable.

/-- Little-endian write of a `u8` (the `as u8` cast truncates mod 256). -/
def writeU8 (n : Nat) : List Nat := [n % 256]

/-- Little-endian write of a `u16` (the `as u16` cast truncates mod 65536). -/
def writeU16 (n : Nat) : List Nat := [n % 256, n / 256 % 256]

/-- Write of a `bool` as a single byte, 1 for true and 0 for false. -/
def writeBool (b : Bool) : List Nat := [if b then 1 else 0]

-- DESERIALIZATION ERRORS

/-- The `DeserializationError` taxonomy used by the byte readers: running out
of bytes, an invalid decoded value, and the wrapper around a structural
(`ParsingError`) message produced when a decoded AST violates a limit. -/
inductive DeserializationError where
  | unexpectedEOF
  | invalidValue (msg : String)
  | unknownError (msg : String)
deriving DecidableEq

-- BYTE READERS
-- Mirrors the `ByteReader` trait methods used by the source
-- (`read_u8`, `read_u16`, `read_bool`, `read_vec`, `read_batch_from`).
-- A reader consumes a stream and returns the value and the remaining stream.

/-- Reads one byte from the stream; errors when the stream is empty. -/
def readU8 : List Nat → Except DeserializationError (Nat × List Nat)
  | [] => .error .unexpectedEOF
  | b :: rest => .ok (b, rest)

/-- Reads a little-endian `u16` from the stream. -/
def readU16 : List Nat → Except DeserializationError (Nat × List Nat)
  | b0 :: b1 :: rest => .ok (b0 + 256 * b1, rest)
  | _ => .error .unexpectedEOF

/-- Reads a `bool`: the byte 0 decodes to false, 1 to true, anything else is
an invalid value. -/
def readBool (s : List Nat) : Except DeserializationError (Bool × List Nat) :=
  match readU8 s with
  | .error e => .error e
  | .ok (0, rest) => .ok (false, rest)
  | .ok (1, rest) => .ok (true, rest)
  | .ok (_, _) => .error (.invalidValue "invalid boolean value")

/-- Reads exactly `n` bytes from the stream (`read_vec`). -/
def readBytes (n : Nat) (s : List Nat) :
    Except DeserializationError (List Nat × List Nat) :=
  if n ≤ s.length then .ok (s.take n, s.drop n) else .error .unexpectedEOF

/-- Reads `n` values in sequence with the element reader `rd`
(`read_batch_from`). -/
def readBatch {α : Type} (rd : List Nat → Except DeserializationError (α × List Nat)) :
    Nat → List Nat → Except DeserializationError (List α × List Nat)
  | 0, s => .ok ([], s)
  | n + 1, s =>
    match rd s with
    | .error e => .error e
    | .ok (x, s1) =>
      match readBatch rd n s1 with
      | .error e => .error e
      | .ok (xs, s2) => .ok (x :: xs, s2)

-- SOURCE LOCATIONS

/-- Modelled from the spec: `SourceLocation` (its module is not under `src/`)
is a line/column marker attached to AST nodes; it may be stripped without
affecting program semantics or hash. `locDefault` is `SourceLocation::default()`. -/
structure SourceLocation where
  line : Nat
  column : Nat
deriving DecidableEq

/-- The `SourceLocation::default()` value. -/
def locDefault : SourceLocation := ⟨0, 0⟩

-- BODY NODES

/-- Modelled from the spec: body nodes (`nodes.rs`/`serde.rs` are not under
`src/`). Per spec §3 a node is a single syntactic operation with its operands;
per spec §6 its encoding is self-describing and decoding is the exact inverse.
A node is represented here by its operation code word. -/
structure Node where
  code : Nat
deriving DecidableEq

/-- Modelled from the spec: the self-describing serialization of one node. -/
def Node.writeInto (nd : Node) : List Nat := writeU16 nd.code

/-- Modelled from the spec: node deserialization, the exact inverse of
`Node.writeInto` on code words within `u16` range. -/
def nodeReadFrom (s : List Nat) : Except DeserializationError (Node × List Nat) :=
  match readU16 s with
  | .error e => .error e
  | .ok (c, rest) => .ok (⟨c⟩, rest)

-- CODE BODY

/-- Modelled from the spec: `CodeBody` (`body.rs` is not under `src/`) is an
ordered sequence of nodes plus a parallel, optional sequence of source
locations (empty when locations were cleared). -/
structure CodeBody where
  nodes : List Node
  locations : List SourceLocation
deriving DecidableEq

/-- `CodeBody::new`: wraps nodes with no bound locations. -/
def CodeBody.new (nodes : List Node) : CodeBody := ⟨nodes, []⟩

/-- `CodeBody::replace_locations`. -/
def CodeBody.replaceLocations (cb : CodeBody) (locs : List SourceLocation) : CodeBody :=
  ⟨cb.nodes, locs⟩

-- LIBRARY PATHS

/-- Modelled from the spec: `LibraryPath` (its module is not under `src/`) is
a fully qualified module path such as `std::math::u64`, a non-empty sequence
of segments; `first` is the top-level namespace segment and `last` the module
short name. -/
structure LibraryPath where
  segments : List ByteStr
deriving DecidableEq

/-- `LibraryPath::first`: the top-level namespace segment. -/
def LibraryPath.first (p : LibraryPath) : ByteStr := p.segments.headD []

/-- `LibraryPath::last`: the last segment, used as the import short name. -/
def LibraryPath.last (p : LibraryPath) : ByteStr := p.segments.getLastD []

/-- Modelled from the spec: the self-describing encoding of one path segment,
a length-prefixed byte string. -/
def writeSegment (s : ByteStr) : List Nat := writeU8 s.length ++ s

/-- Modelled from the spec: reads back one length-prefixed path segment. -/
def readSegment (s : List Nat) : Except DeserializationError (ByteStr × List Nat) :=
  match readU8 s with
  | .error e => .error e
  | .ok (n, s1) => readBytes n s1

/-- Modelled from the spec: the self-describing encoding of a `LibraryPath`
(import paths are "each self-describing", spec §6). -/
def writeLibraryPath (p : LibraryPath) : List Nat :=
  writeU8 p.segments.length ++ (p.segments.map writeSegment).flatten

/-- Modelled from the spec: `LibraryPath` deserialization, the exact inverse
of `writeLibraryPath` on well-formed paths. -/
def readLibraryPath (s : List Nat) : Except DeserializationError (LibraryPath × List Nat) :=
  match readU8 s with
  | .error e => .error e
  | .ok (n, s1) =>
    match readBatch readSegment n s1 with
    | .error e => .error e
    | .ok (segs, s2) => .ok (⟨segs⟩, s2)

-- PROCEDURE NAME LABELS

/-- An ASCII letter byte. -/
def isAsciiLetter (b : Nat) : Bool := (65 ≤ b && b ≤ 90) || (97 ≤ b && b ≤ 122)

/-- A byte allowed inside a procedure label: letters, digits, underscore. -/
def isLabelChar (b : Nat) : Bool := isAsciiLetter b || (48 ≤ b && b ≤ 57) || b == 95

/-- The reserved `#main` procedure name, as bytes. -/
def mainProcName : ByteStr := [35, 109, 97, 105, 110]

/-- Modelled from the spec: the procedure label grammar enforced by
`PROCEDURE_LABEL_PARSER` (`labels.rs` is not under `src/`), per the
`ProcedureName` doc comment in `procedures/mod.rs`: at most 255 bytes, starts
with an ASCII letter, only letters/digits/underscores — or the reserved
literal `#main`. -/
def validLabel (s : ByteStr) : Bool :=
  s == mainProcName ||
    (match s with
     | [] => false
     | c :: _ => isAsciiLetter c && s.all isLabelChar && s.length ≤ 255)

/-- `impl Serializable for ProcedureName`: a `u8` length prefix then the
name's bytes. -/
def writeProcedureName (name : ByteStr) : List Nat := writeU8 name.length ++ name

/-- `impl Deserializable for ProcedureName`: reads the length-prefixed bytes
and re-validates them against the label grammar. -/
def readProcedureName (s : List Nat) : Except DeserializationError (ByteStr × List Nat) :=
  match readU8 s with
  | .error e => .error e
  | .ok (nlen, s1) =>
    match readBytes nlen s1 with
    | .error e => .error e
    | .ok (name, s2) =>
      if validLabel name then .ok (name, s2)
      else .error (.invalidValue "invalid procedure label")

-- DOC STRINGS

/-- The doc-string writer shared by `ProcedureAst` and `ModuleAst`
serialization: `u16` byte length then the bytes, with length 0 standing for
no docs. -/
def writeDocs : Option ByteStr → List Nat
  | some d => writeU16 d.length ++ d
  | none => writeU16 0

/-- The doc-string reader shared by `ProcedureAst` and `ModuleAst`
deserialization: length 0 decodes to `none`. UTF-8 re-validation of the raw
bytes is elided because strings are modelled as byte sequences. -/
def readDocs (s : List Nat) : Except DeserializationError (Option ByteStr × List Nat) :=
  match readU16 s with
  | .error e => .error e
  | .ok (len, s1) =>
    if len ≠ 0 then
      match readBytes len s1 with
      | .error e => .error e
      | .ok (d, s2) => .ok (some d, s2)
    else .ok (none, s1)

-- CONSTANTS (parsers/mod.rs lines 29-42)

/-- `MAX_LOCAL_PROCS`: maximum number of procedures in a module. -/
def maxLocalProcs : Nat := 65535

/-- `MAX_DOCS_LEN`: maximum byte length of one documentation comment. -/
def maxDocsLen : Nat := 65535

/-- `MAX_BODY_LEN`: maximum number of nodes in a statement body. -/
def maxBodyLen : Nat := 65535

/-- `MAX_IMPORTS`: maximum number of imported libraries. -/
def maxImports : Nat := 65535

-- PARSING ERRORS

/-- The `ParsingError` constructors used by the embedded functions, carrying
the numeric payloads the source passes to the corresponding helpers; the
human-readable message text lives outside `src/` and is modelled by
`ParsingError.message`. -/
inductive ParsingError where
  | tooManyImports (actual max : Nat)
  | tooManyModuleProcs (actual max : Nat)
  | moduleDocsTooLong (actual max : Nat)
  | invalidConstValue (value : ByteStr)
deriving DecidableEq

/-- Modelled from the spec: `ParsingError::message` (the errors module is not
under `src/`) returns the error's message text. -/
def ParsingError.message : ParsingError → String
  | .tooManyImports _ _ => "too many imports"
  | .tooManyModuleProcs _ _ => "too many module procs"
  | .moduleDocsTooLong _ _ => "module docs too long"
  | .invalidConstValue _ => "invalid constant value"

-- PROCEDURE AST (parsers/mod.rs lines 490-633)

/-- `ProcedureAst`: name, optional docs, number of locals, body, start
location, and the export flag. -/
structure ProcedureAst where
  name : ByteStr
  docs : Option ByteStr
  numLocals : Nat
  body : CodeBody
  start : SourceLocation
  isExport : Bool
deriving DecidableEq

/-- `ProcedureAst::clear_locations`: resets the start location and replaces
the body locations with the empty vector. -/
def ProcedureAst.clearLocations (p : ProcedureAst) : ProcedureAst :=
  { p with start := locDefault, body := p.body.replaceLocations [] }

/-- `impl Serializable for ProcedureAst`: name, docs, export flag, number of
locals, then the length-prefixed body nodes. -/
def ProcedureAst.writeInto (p : ProcedureAst) : List Nat :=
  writeProcedureName p.name ++ writeDocs p.docs ++ writeBool p.isExport ++
    writeU16 p.numLocals ++ writeU16 p.body.nodes.length ++
    (p.body.nodes.map Node.writeInto).flatten

/-- `impl Deserializable for ProcedureAst`: the exact inverse field order,
rebuilding the body with `CodeBody::new` and a default start location. -/
def procedureAstReadFrom (s : List Nat) :
    Except DeserializationError (ProcedureAst × List Nat) :=
  match readProcedureName s with
  | .error e => .error e
  | .ok (name, s1) =>
    match readDocs s1 with
    | .error e => .error e
    | .ok (docs, s2) =>
      match readBool s2 with
      | .error e => .error e
      | .ok (isExp, s3) =>
        match readU16 s3 with
        | .error e => .error e
        | .ok (numLocals, s4) =>
          match readU16 s4 with
          | .error e => .error e
          | .ok (bodyLen, s5) =>
            match readBatch nodeReadFrom bodyLen s5 with
            | .error e => .error e
            | .ok (nodes, s6) =>
              .ok (⟨name, docs, numLocals, CodeBody.new nodes, locDefault, isExp⟩, s6)

-- IMPORT MAP
-- `BTreeMap<String, LibraryPath>` is modelled as an association list that is
-- strictly sorted by key in byte-lexicographic order, which is exactly the
-- map's iteration order; `insertImport` is `BTreeMap::insert`.

/-- Byte-lexicographic strict order on byte strings (the `Ord` of Rust
`String` restricted to what the map needs). -/
def bytesLt : ByteStr → ByteStr → Bool
  | [], [] => false
  | [], _ :: _ => true
  | _ :: _, [] => false
  | a :: as, b :: bs => a < b || (a == b && bytesLt as bs)

/-- The import map: short name to fully qualified path, in key order. -/
abbrev Imports := List (ByteStr × LibraryPath)

/-- `BTreeMap::insert` on the sorted association list: replaces the value
under an existing key, otherwise inserts at the key's ordered position. -/
def insertImport : Imports → ByteStr → LibraryPath → Imports
  | [], k, v => [(k, v)]
  | (k1, v1) :: rest, k, v =>
    if k = k1 then (k, v) :: rest
    else if bytesLt k k1 then (k, v) :: (k1, v1) :: rest
    else (k1, v1) :: insertImport rest k v

/-- The import-map key invariant: keys strictly sorted (every `BTreeMap`
iterates in this order). -/
def importsSorted (m : Imports) : Prop :=
  List.Pairwise (fun a b => bytesLt a.1 b.1 = true) m

instance (m : Imports) : Decidable (importsSorted m) := by
  unfold importsSorted
  infer_instance

-- PROGRAM AST (parsers/mod.rs lines 56-254)

/-- `ProgramAst`: imports, local procedures, one executable body, and the
program's start location. -/
structure ProgramAst where
  imports : Imports
  localProcs : List ProcedureAst
  body : CodeBody
  start : SourceLocation
deriving DecidableEq

/-- `ProgramAst::new`: checks the import and local-procedure limits (and only
those), then wraps the body with `CodeBody::new` and a default start. The
source passes `MAX_LOCAL_PROCS` as the reported bound for both checks. -/
def programAstNew (imports : Imports) (localProcs : List ProcedureAst)
    (body : List Node) : Except ParsingError ProgramAst :=
  if imports.length > maxImports then
    .error (.tooManyImports imports.length maxLocalProcs)
  else if localProcs.length > maxLocalProcs then
    .error (.tooManyModuleProcs localProcs.length maxLocalProcs)
  else
    .ok ⟨imports, localProcs, CodeBody.new body, locDefault⟩

/-- `ProgramAst::to_bytes`: import count and import path values (keys are not
serialized), procedure count and procedures, body length and body nodes. -/
def programAstToBytes (p : ProgramAst) : List Nat :=
  writeU16 p.imports.length ++ (p.imports.map (fun e => writeLibraryPath e.2)).flatten ++
    writeU16 p.localProcs.length ++ (p.localProcs.map ProcedureAst.writeInto).flatten ++
    writeU16 p.body.nodes.length ++ (p.body.nodes.map Node.writeInto).flatten

/-- `ProgramAst::from_bytes`: reads counts and batches in the inverse order,
rebuilds the import map keyed by each path's last segment, and re-validates
through `ProgramAst::new`. -/
def programAstFromBytes (bytes : List Nat) : Except DeserializationError ProgramAst :=
  match readU16 bytes with
  | .error e => .error e
  | .ok (numImports, s1) =>
    match readBatch readLibraryPath numImports s1 with
    | .error e => .error e
    | .ok (importPaths, s2) =>
      let imports := importPaths.foldl (fun m p => insertImport m p.last p) []
      match readU16 s2 with
      | .error e => .error e
      | .ok (numLocalProcs, s3) =>
        match readBatch procedureAstReadFrom numLocalProcs s3 with
        | .error e => .error e
        | .ok (localProcs, s4) =>
          match readU16 s4 with
          | .error e => .error e
          | .ok (bodyLen, s5) =>
            match readBatch nodeReadFrom bodyLen s5 with
            | .error e => .error e
            | .ok (nodes, _) =>
              match programAstNew imports localProcs nodes with
              | .error err => .error (.unknownError err.message)
              | .ok res => .ok res

-- MODULE AST (parsers/mod.rs lines 285-459)

/-- `ModuleAst`: imports, optional module docs, and local procedures. -/
structure ModuleAst where
  imports : Imports
  docs : Option ByteStr
  localProcs : List ProcedureAst
deriving DecidableEq

/-- `ModuleAst::new`: checks the import, local-procedure and doc-length
limits, in that order. -/
def moduleAstNew (imports : Imports) (localProcs : List ProcedureAst)
    (docs : Option ByteStr) : Except ParsingError ModuleAst :=
  if imports.length > maxImports then
    .error (.tooManyImports imports.length maxLocalProcs)
  else if localProcs.length > maxLocalProcs then
    .error (.tooManyModuleProcs localProcs.length maxLocalProcs)
  else
    match docs with
    | some d =>
      if d.length > maxDocsLen then .error (.moduleDocsTooLong d.length maxDocsLen)
      else .ok ⟨imports, some d, localProcs⟩
    | none => .ok ⟨imports, none, localProcs⟩

/-- `ModuleAst::clear_locations`: clears the locations of every procedure. -/
def ModuleAst.clearLocations (m : ModuleAst) : ModuleAst :=
  { m with localProcs := m.localProcs.map ProcedureAst.clearLocations }

/-- `impl Serializable for ModuleAst` (and `ModuleAst::to_bytes`): docs, the
counted import path values, procedure count and procedures. -/
def moduleAstToBytes (m : ModuleAst) : List Nat :=
  writeDocs m.docs ++ writeU16 m.imports.length ++
    (m.imports.map (fun e => writeLibraryPath e.2)).flatten ++
    writeU16 m.localProcs.length ++ (m.localProcs.map ProcedureAst.writeInto).flatten

/-- `impl Deserializable for ModuleAst` (`ModuleAst::read_from`): the exact
inverse order, rebuilding the import map keyed by each path's last segment
and re-validating through `ModuleAst::new`. -/
def moduleAstReadFrom (bytes : List Nat) :
    Except DeserializationError (ModuleAst × List Nat) :=
  match readDocs bytes with
  | .error e => .error e
  | .ok (docs, s1) =>
    match readU16 s1 with
    | .error e => .error e
    | .ok (numImports, s2) =>
      match readBatch readLibraryPath numImports s2 with
      | .error e => .error e
      | .ok (importPaths, s3) =>
        let imports := importPaths.foldl (fun m p => insertImport m p.last p) []
        match readU16 s3 with
        | .error e => .error e
        | .ok (numLocalProcs, s4) =>
          match readBatch procedureAstReadFrom numLocalProcs s4 with
          | .error e => .error e
          | .ok (localProcs, s5) =>
            match moduleAstNew imports localProcs docs with
            | .error err => .error (.unknownError err.message)
            | .ok res => .ok (res, s5)

/-- `ModuleAst::from_bytes`: `read_from` over a fresh slice reader. -/
def moduleAstFromBytes (bytes : List Nat) : Except DeserializationError ModuleAst :=
  (moduleAstReadFrom bytes).map Prod.fst

-- WELL-FORMEDNESS
-- The validity conditions under which the writers' length prefixes are exact
-- (the bounds the source's `assert!`s guard) and the value is one the parser
-- could have produced.

/-- A well-formed library path: non-empty, and within the `u8` length
prefixes of the modelled path encoding. -/
def wfPath (p : LibraryPath) : Prop :=
  p.segments ≠ [] ∧ p.segments.length ≤ 255 ∧ ∀ s ∈ p.segments, s.length ≤ 255

instance (p : LibraryPath) : Decidable (wfPath p) := by
  unfold wfPath
  infer_instance

/-- Well-formed docs: absent, or non-empty (an empty doc string serializes as
the length-0 marker that decodes to `none`) and within the `u16` prefix. -/
def wfDocs : Option ByteStr → Prop
  | none => True
  | some d => d ≠ [] ∧ d.length ≤ maxDocsLen

instance (d : Option ByteStr) : Decidable (wfDocs d) := by
  cases d <;> (unfold wfDocs; infer_instance)

/-- A well-formed procedure AST: a valid label, well-formed docs, and locals
count, body length and node codes within their `u16` encodings. -/
def wfProc (p : ProcedureAst) : Prop :=
  validLabel p.name = true ∧ wfDocs p.docs ∧ p.numLocals ≤ 65535 ∧
    p.body.nodes.length ≤ maxBodyLen ∧ ∀ nd ∈ p.body.nodes, nd.code ≤ 65535

instance (p : ProcedureAst) : Decidable (wfProc p) := by
  unfold wfProc
  infer_instance

/-- A well-formed program AST: the import map sorted with every key equal to
its path's last segment, limits respected, and all components serializable. -/
def wfProgram (p : ProgramAst) : Prop :=
  importsSorted p.imports ∧ (∀ e ∈ p.imports, wfPath e.2 ∧ e.1 = e.2.last) ∧
    p.imports.length ≤ maxImports ∧ p.localProcs.length ≤ maxLocalProcs ∧
    (∀ q ∈ p.localProcs, wfProc q) ∧ p.body.nodes.length ≤ maxBodyLen ∧
    ∀ nd ∈ p.body.nodes, nd.code ≤ 65535

instance (p : ProgramAst) : Decidable (wfProgram p) := by
  unfold wfProgram
  infer_instance

/-- A well-formed module AST: as for programs, plus well-formed docs. -/
def wfModule (m : ModuleAst) : Prop :=
  importsSorted m.imports ∧ (∀ e ∈ m.imports, wfPath e.2 ∧ e.1 = e.2.last) ∧
    m.imports.length ≤ maxImports ∧ m.localProcs.length ≤ maxLocalProcs ∧
    (∀ q ∈ m.localProcs, wfProc q) ∧ wfDocs m.docs

instance (m : ModuleAst) : Decidable (wfModule m) := by
  unfold wfModule
  infer_instance

/-- What deserialization reconstructs of a program: the same code content
with default start location and no body locations. -/
def stripProgram (p : ProgramAst) : ProgramAst :=
  ⟨p.imports, p.localProcs.map ProcedureAst.clearLocations,
    CodeBody.new p.body.nodes, locDefault⟩

-- CONSTANT VALUE PARSING (parsers/mod.rs lines 782-794)

/-- One accumulation step of decimal parsing: `acc * 10 + digit(c)`. -/
def digitStep (acc c : Nat) : Nat := acc * 10 + (c - 48)

/-- Modelled from Rust core's `u64::from_str` (invoked by the source's
`const_value.parse::<u64>()`): ASCII digits are accumulated with checked
multiply and add, failing on a non-digit byte or on overflow past
`2^64 - 1`. -/
def accumU64 : ByteStr → Nat → Option Nat
  | [], acc => some acc
  | c :: cs, acc =>
    if 48 ≤ c ∧ c ≤ 57 then
      if acc * 10 + (c - 48) < 2 ^ 64 then accumU64 cs (acc * 10 + (c - 48)) else none
    else none

/-- Modelled from Rust core's `u64::from_str`: an optional leading `+`
followed by one or more ASCII digits; empty input, a lone sign, any other
byte, and overflow are parse errors. -/
def parseU64 (s : ByteStr) : Option Nat :=
  match s with
  | [] => none
  | c :: cs =>
    if c = 43 then (if cs = [] then none else accumU64 cs 0)
    else accumU64 (c :: cs) 0

/-- `parse_const_value`: parses the value as a `u64` and requires it to lie
in `0..Felt::MODULUS`; both failures produce `invalid_const_value`. The
field modulus is an external constant of the field library and is taken as
a parameter. -/
def parseConstValue (modulus : Nat) (s : ByteStr) : Except ParsingError Nat :=
  match parseU64 s with
  | none => .error (.invalidConstValue s)
  | some v => if 0 ≤ v ∧ v < modulus then .ok v else .error (.invalidConstValue s)

/-- The claim's own wording for C3 (kept separate from the source-derived
`parseU64` so the two can be compared): `s` parses as an unsigned 64-bit
integer `v` — an optional leading plus sign, then a non-empty run of ASCII
digits whose decimal value is `v < 2^64`. -/
def specParsesAsU64 (s : ByteStr) (v : Nat) : Prop :=
  ∃ ds : ByteStr, (s = ds ∨ s = 43 :: ds) ∧ ds ≠ [] ∧
    (∀ c ∈ ds, 48 ≤ c ∧ c ≤ 57) ∧ List.foldl digitStep 0 ds = v ∧ v < 2 ^ 64

-- PROCEDURE SCOPES (procedures/mod.rs lines 16-52)

/-- `MaterializedProcedureScope`: Internal to a declaring module, Exported,
or Library-wide within a top-level namespace. `LibraryNamespace` (defined
outside `src/`) is modelled as its namespace string. -/
inductive MaterializedProcedureScope where
  | internal (path : LibraryPath)
  | exported
  | library (ns : ByteStr)
deriving DecidableEq

/-- `MaterializedProcedureScope::is_export`: true for `Exported` and
`Library`, false for `Internal`. -/
def MaterializedProcedureScope.isExport : MaterializedProcedureScope → Bool
  | .exported => true
  | .library _ => true
  | .internal _ => false

/-- `MaterializedProcedureScope::is_valid_invocation`: Internal requires the
exact declaring path, Exported always allows, Library requires the caller's
top-level namespace segment to equal the namespace. -/
def MaterializedProcedureScope.isValidInvocation (s : MaterializedProcedureScope)
    (invocationScope : LibraryPath) : Bool :=
  match s with
  | .internal scope => scope = invocationScope
  | .exported => true
  | .library ns => invocationScope.first = ns

-- CALL SETS (procedures/mod.rs lines 391-408)

/-- MAST-root digests, modelled as naturals: `RpoDigest` is an opaque value
of the external hash library, and the `BTreeSet` only uses its total order
and equality. -/
abbrev RpoDigest := Nat

/-- Ordered insertion with deduplication: the `BTreeSet::insert` step over
the set's sorted element sequence. -/
def sortedInsert (x : RpoDigest) : List RpoDigest → List RpoDigest
  | [] => [x]
  | y :: ys =>
    if x = y then y :: ys
    else if x < y then x :: y :: ys
    else y :: sortedInsert x ys

/-- `CallSet`: a `BTreeSet<RpoDigest>` represented by its sorted element
sequence. -/
structure CallSet where
  elems : List RpoDigest
deriving DecidableEq

/-- The `BTreeSet` representation invariant: elements strictly sorted. -/
def CallSet.sortedElems (s : CallSet) : Prop :=
  List.Pairwise (fun a b => a < b) s.elems

instance (s : CallSet) : Decidable s.sortedElems := by
  unfold CallSet.sortedElems
  infer_instance

/-- `CallSet::default()`: the empty set. -/
def CallSet.empty : CallSet := ⟨[]⟩

/-- `CallSet::contains`. -/
def CallSet.contains (s : CallSet) (mastRoot : RpoDigest) : Bool :=
  mastRoot ∈ s.elems

/-- `CallSet::insert`. -/
def CallSet.insert (s : CallSet) (mastRoot : RpoDigest) : CallSet :=
  ⟨sortedInsert mastRoot s.elems⟩

/-- `CallSet::append`: inserts every element of `other`. -/
def CallSet.append (s other : CallSet) : CallSet :=
  ⟨other.elems.foldl (fun acc x => sortedInsert x acc) s.elems⟩

-- PROCEDURES (procedures/mod.rs lines 59-186)

/-- `ProcedureId`: a 20-byte truncated hash of the fully qualified path,
modelled as its byte sequence (the Blake3 hash is external). -/
abbrev ProcedureId := List Nat

/-- `Procedure`: locals count, compiled MAST (modelled by its root digest,
the `CodeBlock` type being external), and the call set. -/
structure Procedure where
  numLocals : Nat
  code : RpoDigest
  callset : CallSet

/-- `NamedProcedure`: a `Procedure` with id, name and materialized scope. -/
structure NamedProcedure where
  id : ProcedureId
  name : ByteStr
  scope : MaterializedProcedureScope
  procedure : Procedure

/-- `NamedProcedure::is_export`: delegates to the scope. -/
def NamedProcedure.isExport (p : NamedProcedure) : Bool := p.scope.isExport

-- PROCEDURE ORDERING (parsers/mod.rs lines 737-743)

/-- The comparison key of `sort_by_key(|(idx, _proc)| *idx)`. -/
def procPairLe (a b : Nat × ProcedureAst) : Bool := a.1 ≤ b.1

/-- The intermediate of `sort_procs_into_vec`: the map's values (in the
map's own iteration order) stably sorted by declaration index. -/
def sortedProcPairs (procMap : List (ByteStr × Nat × ProcedureAst)) :
    List (Nat × ProcedureAst) :=
  (procMap.map Prod.snd).mergeSort procPairLe

/-- `sort_procs_into_vec`: sorts the map's values by declaration index and
drops the indices. -/
def sortProcsIntoVec (procMap : List (ByteStr × Nat × ProcedureAst)) :
    List ProcedureAst :=
  (sortedProcPairs procMap).map Prod.snd

-- DYN BLOCK (core/src/program/blocks/dyn_block.rs)

/-- Field elements of the external field library, kept opaque. -/
abbrev Felt := Nat

/-- An Rpo digest as four field elements. -/
abbrev Digest := Felt × Felt × Felt × Felt

/-- `Digest::default()`: the all-zero digest. -/
def zeroDigest : Digest := (0, 0, 0, 0)

/-- The `Dyn` block: its only state is its hash, computed on construction. -/
structure Dyn where
  hash : Digest

/-- `Dyn::new`: hashes two default (all-zero) padding digests under the
block's domain. `hasher::merge_in_domain` is an external collaborator and a
parameter; `domain` instantiates to `Dyn::DOMAIN`, the field element of
`Operation::Dyn`'s opcode (both defined outside `src/`). -/
def Dyn.new (mergeInDomain : List Digest → Felt → Digest) (domain : Felt) : Dyn :=
  ⟨mergeInDomain [zeroDigest, zeroDigest] domain⟩

/-- `impl Default for Dyn`: delegates to `Dyn::new`. -/
def Dyn.defaultBlock (mergeInDomain : List Digest → Felt → Digest) (domain : Felt) : Dyn :=
  Dyn.new mergeInDomain domain

-- DECIDABILITY SUPPORT

instance {ε α : Type} [DecidableEq ε] [DecidableEq α] : DecidableEq (Except ε α) :=
  fun x y =>
    match x, y with
    | .error a, .error b =>
      if h : a = b then .isTrue (by rw [h]) else .isFalse fun hc => h (by cases hc; rfl)
    | .error _, .ok _ => .isFalse fun hc => by cases hc
    | .ok _, .error _ => .isFalse fun hc => by cases hc
    | .ok a, .ok b =>
      if h : a = b then .isTrue (by rw [h]) else .isFalse fun hc => h (by cases hc; rfl)

-- SAMPLE VALUES
-- Concrete inputs for the closed witnesses and counterexamples.

/-- The single-segment path `u64`. -/
def samplePathU64 : LibraryPath := ⟨[[117, 54, 52]]⟩

/-- A program within every construction limit whose import-map key `foo`
differs from its path's last segment `u64`. -/
def cexProgram : ProgramAst :=
  ⟨[([102, 111, 111], samplePathU64)], [], ⟨[], []⟩, locDefault⟩

/-- The path `a::c`. -/
def dupPathA : LibraryPath := ⟨[[97], [99]]⟩

/-- The path `b::c`: distinct from `dupPathA` but with the same last
segment `c`. -/
def dupPathB : LibraryPath := ⟨[[98], [99]]⟩

/-- A well-formed sample program: import `s::u64` keyed `u64`, one exported
procedure `foo`, and non-default source locations throughout. -/
def sampleProgram : ProgramAst :=
  ⟨[([117, 54, 52], ⟨[[115], [117, 54, 52]]⟩)],
   [⟨[102, 111, 111], none, 2, ⟨[⟨7⟩], [⟨1, 1⟩]⟩, ⟨3, 4⟩, true⟩],
   ⟨[⟨1⟩, ⟨2⟩], [⟨1, 1⟩, ⟨1, 2⟩]⟩, ⟨5, 6⟩⟩

/-- A well-formed sample module with module docs, one documented procedure
and bound source locations. -/
def sampleModule : ModuleAst :=
  ⟨[([117, 54, 52], ⟨[[115], [117, 54, 52]]⟩)], some [104, 105],
   [⟨[102, 111, 111], some [100], 2, ⟨[⟨7⟩], [⟨1, 1⟩]⟩, ⟨3, 4⟩, true⟩]⟩

/-- A sample call set. -/
def sampleCallSetA : CallSet := ⟨[1, 3]⟩

/-- A second sample call set overlapping the first. -/
def sampleCallSetB : CallSet := ⟨[2, 3]⟩

/-- A sample procedure with name `x`, declared first. -/
def sampleProcX : ProcedureAst := ⟨[120], none, 0, ⟨[], []⟩, locDefault, false⟩

/-- A sample procedure with name `y`, declared second. -/
def sampleProcY : ProcedureAst := ⟨[121], none, 1, ⟨[⟨5⟩], []⟩, locDefault, true⟩

/-- A procedure map listing `x` then `y`. -/
def sampleMap1 : List (ByteStr × Nat × ProcedureAst) :=
  [([120], 0, sampleProcX), ([121], 1, sampleProcY)]

/-- The same procedure map in the opposite iteration order. -/
def sampleMap2 : List (ByteStr × Nat × ProcedureAst) :=
  [([121], 1, sampleProcY), ([120], 0, sampleProcX)]

-- READ/WRITE ROUND-TRIP LEMMAS

theorem readU8_writeU8 (n : Nat) (h : n ≤ 255) (rest : List Nat) :
    readU8 (writeU8 n ++ rest) = .ok (n, rest) := by
  simp only [writeU8, List.cons_append, List.nil_append, readU8]
  have : n % 256 = n := Nat.mod_eq_of_lt (by omega)
  rw [this]

theorem readU16_writeU16 (n : Nat) (h : n ≤ 65535) (rest : List Nat) :
    readU16 (writeU16 n ++ rest) = .ok (n, rest) := by
  simp only [writeU16, List.cons_append, List.nil_append, readU16]
  have : n % 256 + 256 * (n / 256 % 256) = n := by omega
  rw [this]

theorem readBool_writeBool (b : Bool) (rest : List Nat) :
    readBool (writeBool b ++ rest) = .ok (b, rest) := by
  cases b <;> rfl

theorem readBytes_append (l rest : List Nat) :
    readBytes l.length (l ++ rest) = .ok (l, rest) := by
  simp [readBytes, List.take_append, List.drop_append]

/-- Generic batch round trip: when each element of `l`, once encoded by
`enc`, reads back as `f` of the element, a batch read of `l.length` elements
over the concatenated encodings returns `l.map f`. -/
theorem readBatch_join {α β : Type} (rd : List Nat → Except DeserializationError (β × List Nat))
    (enc : α → List Nat) (f : α → β) (l : List α)
    (h : ∀ x ∈ l, ∀ rest, rd (enc x ++ rest) = .ok (f x, rest)) (rest : List Nat) :
    readBatch rd l.length ((l.map enc).flatten ++ rest) = .ok (l.map f, rest) := by
  induction l with
  | nil => simp [readBatch]
  | cons x xs ih =>
    have hx := h x (by simp)
    have hxs : ∀ y ∈ xs, ∀ r, rd (enc y ++ r) = .ok (f y, r) := by
      intro y hy r
      exact h y (by simp [hy]) r
    simp only [List.map_cons, List.flatten_cons, List.length_cons, List.append_assoc, readBatch]
    rw [hx ((xs.map enc).flatten ++ rest)]
    simp only [ih hxs]

-- ELEMENT CODEC ROUND-TRIP LEMMAS

theorem validLabel_length (s : ByteStr) (h : validLabel s = true) : s.length ≤ 255 := by
  unfold validLabel at h
  cases s with
  | nil => simp [mainProcName] at h
  | cons c cs =>
    rw [Bool.or_eq_true] at h
    cases h with
    | inl h =>
      have he : c :: cs = mainProcName := by simpa using h
      rw [he]
      simp [mainProcName]
    | inr h =>
      simp only [Bool.and_eq_true, decide_eq_true_eq] at h
      exact h.2

theorem readSegment_writeSegment (s : ByteStr) (h : s.length ≤ 255) (rest : List Nat) :
    readSegment (writeSegment s ++ rest) = .ok (s, rest) := by
  unfold writeSegment readSegment
  rw [List.append_assoc, readU8_writeU8 s.length h]
  simp [readBytes_append]

theorem readLibraryPath_writeLibraryPath (p : LibraryPath) (h : wfPath p) (rest : List Nat) :
    readLibraryPath (writeLibraryPath p ++ rest) = .ok (p, rest) := by
  obtain ⟨-, hlen, hsegs⟩ := h
  have hb := readBatch_join readSegment writeSegment id p.segments
    (fun x hx r => readSegment_writeSegment x (hsegs x hx) r)
  simp only [writeLibraryPath, readLibraryPath, List.append_assoc,
    readU8_writeU8 p.segments.length hlen, hb, List.map_id]

theorem readProcedureName_writeProcedureName (s : ByteStr) (h : validLabel s = true)
    (rest : List Nat) :
    readProcedureName (writeProcedureName s ++ rest) = .ok (s, rest) := by
  unfold writeProcedureName readProcedureName
  rw [List.append_assoc, readU8_writeU8 s.length (validLabel_length s h)]
  simp [readBytes_append, h]

theorem readDocs_writeDocs (d : Option ByteStr) (h : wfDocs d) (rest : List Nat) :
    readDocs (writeDocs d ++ rest) = .ok (d, rest) := by
  cases d with
  | none =>
    unfold writeDocs readDocs
    rw [readU16_writeU16 0 (by omega)]
    simp
  | some s =>
    obtain ⟨hne, hlen⟩ := h
    unfold writeDocs readDocs
    rw [List.append_assoc, readU16_writeU16 s.length hlen]
    have hlz : s.length ≠ 0 := by
      simpa using List.length_pos_iff_ne_nil.mpr hne |>.ne'
    simp [hlz, readBytes_append]

theorem nodeReadFrom_writeInto (nd : Node) (h : nd.code ≤ 65535) (rest : List Nat) :
    nodeReadFrom (nd.writeInto ++ rest) = .ok (nd, rest) := by
  unfold Node.writeInto nodeReadFrom
  rw [readU16_writeU16 nd.code h]

theorem procedureAstReadFrom_writeInto (p : ProcedureAst) (h : wfProc p) (rest : List Nat) :
    procedureAstReadFrom (p.writeInto ++ rest) = .ok (p.clearLocations, rest) := by
  obtain ⟨hname, hdocs, hnl, hbl, hcodes⟩ := h
  have hnodes := readBatch_join nodeReadFrom Node.writeInto id p.body.nodes
    (fun x hx r => nodeReadFrom_writeInto x (hcodes x hx) r)
  simp only [ProcedureAst.writeInto, procedureAstReadFrom, List.append_assoc,
    readProcedureName_writeProcedureName p.name hname, readDocs_writeDocs p.docs hdocs,
    readBool_writeBool, readU16_writeU16 p.numLocals hnl,
    readU16_writeU16 p.body.nodes.length hbl, hnodes, List.map_id]
  rfl

-- IMPORT MAP REBUILD LEMMAS
-- Deserialization re-inserts the decoded paths keyed by their last segment;
-- when the original map was keyed that way, the fold rebuilds it exactly.

theorem bytesLt_irrefl (a : ByteStr) : bytesLt a a = false := by
  induction a with
  | nil => rfl
  | cons c cs ih => simp [bytesLt, ih]

theorem bytesLt_asymm (a b : ByteStr) (hab : bytesLt a b = true)
    (hba : bytesLt b a = true) : False := by
  induction a generalizing b with
  | nil => cases b <;> simp [bytesLt] at hab hba
  | cons x xs ih =>
    cases b with
    | nil => simp [bytesLt] at hab
    | cons y ys =>
      simp only [bytesLt, Bool.or_eq_true, Bool.and_eq_true, decide_eq_true_eq,
        beq_iff_eq] at hab hba
      rcases hab with h1 | ⟨he1, ht1⟩ <;> rcases hba with h2 | ⟨he2, ht2⟩
      · omega
      · omega
      · omega
      · exact ih ys ht1 ht2

theorem bytesLt_ne (a b : ByteStr) (h : bytesLt a b = true) : a ≠ b := by
  intro he
  rw [he, bytesLt_irrefl] at h
  exact Bool.false_ne_true h

theorem insertImport_append (m : Imports) (k : ByteStr) (v : LibraryPath)
    (h : ∀ e ∈ m, bytesLt e.1 k = true) :
    insertImport m k v = m ++ [(k, v)] := by
  induction m with
  | nil => rfl
  | cons e rest ih =>
    have hk : bytesLt e.1 k = true := h e (by simp)
    have hne : k ≠ e.1 := fun he => bytesLt_ne e.1 k hk he.symm
    have hnlt : ¬ bytesLt k e.1 = true := fun hlt => bytesLt_asymm e.1 k hk hlt
    simp only [insertImport, if_neg hne, if_neg hnlt, List.cons_append, List.cons.injEq,
      true_and]
    exact ih fun x hx => h x (by simp [hx])

theorem foldl_insertImport_rebuild (m : Imports) (acc : Imports)
    (hsort : importsSorted m) (hkeys : ∀ e ∈ m, e.1 = e.2.last)
    (hacc : ∀ a ∈ acc, ∀ e ∈ m, bytesLt a.1 e.1 = true) :
    List.foldl (fun mm p => insertImport mm p.last p) acc (m.map Prod.snd) = acc ++ m := by
  induction m generalizing acc with
  | nil => simp
  | cons e rest ih =>
    obtain ⟨k, v⟩ := e
    have hk : k = v.last := hkeys (k, v) (by simp)
    have hstep : insertImport acc v.last v = acc ++ [(k, v)] := by
      rw [← hk]
      exact insertImport_append acc k v fun a ha => hacc a ha (k, v) (by simp)
    have hsort' : importsSorted rest := (List.pairwise_cons.mp hsort).2
    have hhead : ∀ x ∈ rest, bytesLt k x.1 = true := by
      intro x hx
      exact (List.pairwise_cons.mp hsort).1 x hx
    have hacc' : ∀ a ∈ acc ++ [(k, v)], ∀ x ∈ rest, bytesLt a.1 x.1 = true := by
      intro a ha x hx
      rcases List.mem_append.mp ha with ha | ha
      · exact hacc a ha x (by simp [hx])
      · have : a = (k, v) := by simpa using ha
        rw [this]
        exact hhead x hx
    simp only [List.map_cons, List.foldl_cons, hstep]
    rw [ih (acc ++ [(k, v)]) hsort' (fun x hx => hkeys x (by simp [hx])) hacc']
    simp

-- FULL ROUND-TRIP HELPERS

theorem programAst_roundtrip (p : ProgramAst) (h : wfProgram p) :
    programAstFromBytes (programAstToBytes p) = .ok (stripProgram p) := by
  obtain ⟨hsort, himps, hilen, hplen, hprocs, hblen, hcodes⟩ := h
  have hpaths := readBatch_join readLibraryPath (fun e => writeLibraryPath e.2) Prod.snd
    p.imports (fun e he r => readLibraryPath_writeLibraryPath e.2 (himps e he).1 r)
  have hprocsRead := readBatch_join procedureAstReadFrom ProcedureAst.writeInto
    ProcedureAst.clearLocations p.localProcs
    (fun q hq r => procedureAstReadFrom_writeInto q (hprocs q hq) r)
  have hnodesTail : readBatch nodeReadFrom p.body.nodes.length
      (p.body.nodes.map Node.writeInto).flatten = .ok (p.body.nodes.map id, []) := by
    have := readBatch_join nodeReadFrom Node.writeInto id p.body.nodes
      (fun nd hnd r => nodeReadFrom_writeInto nd (hcodes nd hnd) r) []
    simpa using this
  have hrebuild := foldl_insertImport_rebuild p.imports []
    hsort (fun e he => (himps e he).2) (by simp)
  have hok : programAstNew p.imports (p.localProcs.map ProcedureAst.clearLocations)
      p.body.nodes = .ok (stripProgram p) := by
    unfold programAstNew
    rw [if_neg (Nat.not_lt.mpr hilen), List.length_map, if_neg (Nat.not_lt.mpr hplen)]
    rfl
  simp only [programAstToBytes, programAstFromBytes, List.append_assoc,
    readU16_writeU16 p.imports.length hilen, hpaths,
    readU16_writeU16 p.localProcs.length hplen, hprocsRead,
    readU16_writeU16 p.body.nodes.length hblen, hnodesTail, List.map_id,
    hrebuild, List.nil_append, hok]

theorem moduleAst_roundtrip (m : ModuleAst) (h : wfModule m) :
    moduleAstFromBytes (moduleAstToBytes m) = .ok m.clearLocations := by
  obtain ⟨hsort, himps, hilen, hplen, hprocs, hdocs⟩ := h
  have hpaths := readBatch_join readLibraryPath (fun e => writeLibraryPath e.2) Prod.snd
    m.imports (fun e he r => readLibraryPath_writeLibraryPath e.2 (himps e he).1 r)
  have hprocsTail : readBatch procedureAstReadFrom m.localProcs.length
      (m.localProcs.map ProcedureAst.writeInto).flatten
      = .ok (m.localProcs.map ProcedureAst.clearLocations, []) := by
    have := readBatch_join procedureAstReadFrom ProcedureAst.writeInto
      ProcedureAst.clearLocations m.localProcs
      (fun q hq r => procedureAstReadFrom_writeInto q (hprocs q hq) r) []
    simpa using this
  have hrebuild := foldl_insertImport_rebuild m.imports []
    hsort (fun e he => (himps e he).2) (by simp)
  have hok : moduleAstNew m.imports (m.localProcs.map ProcedureAst.clearLocations)
      m.docs = .ok m.clearLocations := by
    unfold moduleAstNew
    rw [if_neg (Nat.not_lt.mpr hilen), List.length_map, if_neg (Nat.not_lt.mpr hplen)]
    cases hd : m.docs with
    | none => simp [ModuleAst.clearLocations, hd]
    | some d =>
      rw [hd] at hdocs
      have hnd : ¬ d.length > maxDocsLen := Nat.not_lt.mpr hdocs.2
      simp [hnd, ModuleAst.clearLocations, hd]
  simp only [moduleAstToBytes, moduleAstFromBytes, moduleAstReadFrom, List.append_assoc,
    readDocs_writeDocs m.docs hdocs, readU16_writeU16 m.imports.length hilen, hpaths,
    readU16_writeU16 m.localProcs.length hplen, hprocsTail,
    hrebuild, List.nil_append, hok, Except.map]

-- CONSTANT PARSING LEMMAS

theorem foldl_digitStep_le (ds : ByteStr) (acc : Nat) :
    acc ≤ List.foldl digitStep acc ds := by
  induction ds generalizing acc with
  | nil => exact Nat.le_refl acc
  | cons c cs ih =>
    calc acc ≤ digitStep acc c := by unfold digitStep; omega
    _ ≤ List.foldl digitStep (digitStep acc c) cs := ih _
    _ = List.foldl digitStep acc (c :: cs) := (List.foldl_cons _ _).symm

theorem accumU64_some_iff (ds : ByteStr) (acc v : Nat) (hacc : acc < 2 ^ 64) :
    accumU64 ds acc = some v ↔
      ((∀ c ∈ ds, 48 ≤ c ∧ c ≤ 57) ∧ List.foldl digitStep acc ds = v ∧ v < 2 ^ 64) := by
  induction ds generalizing acc with
  | nil =>
    simp only [accumU64, Option.some.injEq, List.not_mem_nil, false_implies, implies_true,
      List.foldl_nil, true_and]
    constructor
    · rintro rfl
      exact ⟨rfl, hacc⟩
    · rintro ⟨rfl, -⟩
      rfl
  | cons c cs ih =>
    by_cases hd : 48 ≤ c ∧ c ≤ 57
    · by_cases hov : acc * 10 + (c - 48) < 2 ^ 64
      · rw [show accumU64 (c :: cs) acc = accumU64 cs (acc * 10 + (c - 48)) from by
          rw [accumU64, if_pos hd, if_pos hov]]
        rw [ih _ hov]
        simp only [List.forall_mem_cons, List.foldl_cons]
        constructor
        · rintro ⟨h1, h2, h3⟩
          exact ⟨⟨hd, h1⟩, by simpa [digitStep] using h2, h3⟩
        · rintro ⟨⟨-, h1⟩, h2, h3⟩
          exact ⟨h1, by simpa [digitStep] using h2, h3⟩
      · constructor
        · intro h
          rw [accumU64, if_pos hd, if_neg hov] at h
          exact Option.noConfusion h
        · rintro ⟨-, hfold, hv⟩
          exfalso
          have h1 := foldl_digitStep_le cs (digitStep acc c)
          rw [List.foldl_cons] at hfold
          rw [hfold] at h1
          unfold digitStep at h1
          omega
    · constructor
      · intro h
        rw [accumU64, if_neg hd] at h
        exact Option.noConfusion h
      · rintro ⟨hds, -, -⟩
        exact absurd (hds c (by simp)) hd

theorem parseU64_iff_spec (s : ByteStr) (v : Nat) :
    parseU64 s = some v ↔ specParsesAsU64 s v := by
  constructor
  · intro h
    cases s with
    | nil => simp [parseU64] at h
    | cons c cs =>
      by_cases hc : c = 43
      · by_cases hcs : cs = []
        · simp [parseU64, hc, hcs] at h
        · simp only [parseU64, if_pos hc, if_neg hcs] at h
          obtain ⟨h1, h2, h3⟩ := (accumU64_some_iff cs 0 v (by norm_num)).mp h
          exact ⟨cs, Or.inr (by rw [hc]), hcs, h1, h2, h3⟩
      · simp only [parseU64, if_neg hc] at h
        obtain ⟨h1, h2, h3⟩ := (accumU64_some_iff (c :: cs) 0 v (by norm_num)).mp h
        exact ⟨c :: cs, Or.inl rfl, by simp, h1, h2, h3⟩
  · rintro ⟨ds, hs, hne, hds, hfold, hv⟩
    have hacc : accumU64 ds 0 = some v :=
      (accumU64_some_iff ds 0 v (by norm_num)).mpr ⟨hds, hfold, hv⟩
    rcases hs with hseq | hseq
    · rw [hseq]
      cases ds with
      | nil => exact absurd rfl hne
      | cons c cs =>
        have hc : c ≠ 43 := by
          have := hds c (by simp)
          omega
        simpa [parseU64, hc] using hacc
    · rw [hseq]
      simpa [parseU64, hne] using hacc

-- CALL SET LEMMAS

theorem mem_sortedInsert (x y : Nat) (l : List Nat) :
    y ∈ sortedInsert x l ↔ y = x ∨ y ∈ l := by
  induction l with
  | nil => simp [sortedInsert]
  | cons z zs ih =>
    by_cases hxz : x = z
    · rw [sortedInsert, if_pos hxz]
      subst hxz
      constructor
      · intro h
        exact Or.inr h
      · rintro (rfl | h)
        · exact List.mem_cons_self _ _
        · exact h
    · by_cases hlt : x < z
      · rw [sortedInsert, if_neg hxz, if_pos hlt]
        simp only [List.mem_cons]
      · rw [sortedInsert, if_neg hxz, if_neg hlt]
        simp only [List.mem_cons, ih]
        tauto

theorem pairwise_sortedInsert (x : Nat) (l : List Nat)
    (h : List.Pairwise (fun a b => a < b) l) :
    List.Pairwise (fun a b => a < b) (sortedInsert x l) := by
  induction l with
  | nil => simp [sortedInsert]
  | cons z zs ih =>
    obtain ⟨hz, hzs⟩ := List.pairwise_cons.mp h
    by_cases hxz : x = z
    · rw [sortedInsert, if_pos hxz]
      exact h
    · by_cases hlt : x < z
      · rw [sortedInsert, if_neg hxz, if_pos hlt]
        refine List.pairwise_cons.mpr ⟨?_, h⟩
        intro b hb
        rcases List.mem_cons.mp hb with rfl | hb
        · exact hlt
        · exact Nat.lt_trans hlt (hz b hb)
      · rw [sortedInsert, if_neg hxz, if_neg hlt]
        refine List.pairwise_cons.mpr ⟨?_, ih hzs⟩
        intro b hb
        rcases (mem_sortedInsert x b zs).mp hb with hbx | hb
        · rw [hbx]
          exact Nat.lt_of_le_of_ne (Nat.le_of_not_lt hlt) fun he => hxz he.symm
        · exact hz b hb

theorem mem_foldl_sortedInsert (l init : List Nat) (x : Nat) :
    x ∈ l.foldl (fun acc y => sortedInsert y acc) init ↔ x ∈ init ∨ x ∈ l := by
  induction l generalizing init with
  | nil => simp
  | cons z zs ih =>
    simp only [List.foldl_cons, ih, mem_sortedInsert, List.mem_cons]
    tauto

theorem pairwise_foldl_sortedInsert (l init : List Nat)
    (h : List.Pairwise (fun a b => a < b) init) :
    List.Pairwise (fun a b => a < b) (l.foldl (fun acc y => sortedInsert y acc) init) := by
  induction l generalizing init with
  | nil => exact h
  | cons z zs ih => exact ih _ (pairwise_sortedInsert z init h)

theorem sorted_eq_of_mem_iff (l1 l2 : List Nat)
    (h1 : List.Pairwise (fun a b => a < b) l1)
    (h2 : List.Pairwise (fun a b => a < b) l2)
    (hm : ∀ x, x ∈ l1 ↔ x ∈ l2) : l1 = l2 := by
  haveI : IsAntisymm Nat (fun a b => a < b) :=
    ⟨fun a b ha hb => absurd (Nat.lt_trans ha hb) (Nat.lt_irrefl a)⟩
  have hn1 : l1.Nodup := h1.imp Nat.ne_of_lt
  have hn2 : l2.Nodup := h2.imp Nat.ne_of_lt
  exact List.eq_of_perm_of_sorted ((List.perm_ext_iff_of_nodup hn1 hn2).mpr hm) h1 h2

-- CLAIM THEOREMS

/-- C3: `parse_const_value` returns `Ok(v)` exactly when the constant-value
string parses as an unsigned 64-bit integer `v` with `0 <= v` below the
field modulus; on every other string (non-numeric, out of `u64` range, or
at least the modulus) it returns the `InvalidConstValue` parsing error. -/
theorem parseConstValue_spec (modulus : Nat) (s : ByteStr) :
    (∀ v, parseConstValue modulus s = .ok v ↔ specParsesAsU64 s v ∧ v < modulus)
    ∧ ((∃ v, parseConstValue modulus s = .ok v) ∨
        parseConstValue modulus s = .error (.invalidConstValue s)) := by
  constructor
  · intro v
    constructor
    · intro h
      cases hp : parseU64 s with
      | none => simp [parseConstValue, hp] at h
      | some v0 =>
        by_cases hlt : v0 < modulus
        · simp [parseConstValue, hp, hlt] at h
          subst h
          exact ⟨(parseU64_iff_spec s v0).mp hp, hlt⟩
        · simp [parseConstValue, hp, hlt] at h
    · rintro ⟨hspec, hlt⟩
      have hp : parseU64 s = some v := (parseU64_iff_spec s v).mpr hspec
      simp [parseConstValue, hp, hlt]
  · cases hp : parseU64 s with
    | none => exact Or.inr (by simp [parseConstValue, hp])
    | some v0 =>
      by_cases hlt : v0 < modulus
      · exact Or.inl ⟨v0, by simp [parseConstValue, hp, hlt]⟩
      · exact Or.inr (by simp [parseConstValue, hp, hlt])

/-- C4: `is_valid_invocation` — an `Internal` procedure is callable only
from the exact declaring module path, an `Exported` procedure from any
caller, and a `Library` procedure exactly when the caller's top-level
namespace segment equals the scope's namespace. -/
theorem isValidInvocation_spec (c : LibraryPath) :
    (∀ p, (MaterializedProcedureScope.internal p).isValidInvocation c = true ↔ c = p)
    ∧ MaterializedProcedureScope.exported.isValidInvocation c = true
    ∧ ∀ ns, (MaterializedProcedureScope.library ns).isValidInvocation c = true ↔
        c.first = ns := by
  refine ⟨fun p => ?_, rfl, fun ns => ?_⟩
  · simp only [MaterializedProcedureScope.isValidInvocation, decide_eq_true_eq]
    exact eq_comm
  · simp only [MaterializedProcedureScope.isValidInvocation, decide_eq_true_eq]

/-- C5: every `Dyn` block (via `Dyn::new` or `Default`) has the same hash,
the constant `merge_in_domain([zero, zero], DOMAIN)` determined purely by
the domain tag and the two all-zero padding digests; `domain` stands for
`Dyn::DOMAIN`, the field element of `Operation::Dyn`'s opcode. -/
theorem dyn_hash_constant (mergeInDomain : List Digest → Felt → Digest) (domain : Felt) :
    (Dyn.new mergeInDomain domain).hash = mergeInDomain [zeroDigest, zeroDigest] domain
    ∧ Dyn.defaultBlock mergeInDomain domain = Dyn.new mergeInDomain domain
    ∧ (Dyn.defaultBlock mergeInDomain domain).hash = (Dyn.new mergeInDomain domain).hash :=
  ⟨rfl, rfl, rfl⟩

/-- C6: `ModuleAst::clear_locations` never changes the serialized code
stream — stripping source locations and re-serializing yields exactly the
bytes of the original module. -/
theorem clearLocations_preserves_code_stream (m : ModuleAst) :
    moduleAstToBytes m.clearLocations = moduleAstToBytes m := by
  have hpt : ∀ q : ProcedureAst,
      (ProcedureAst.clearLocations q).writeInto = q.writeInto := by
    intro q
    simp [ProcedureAst.writeInto, ProcedureAst.clearLocations, CodeBody.replaceLocations]
  have hcomp : ProcedureAst.writeInto ∘ ProcedureAst.clearLocations
      = ProcedureAst.writeInto := funext hpt
  unfold moduleAstToBytes ModuleAst.clearLocations
  simp [List.map_map, hcomp]

/-- C9: `is_export` is true for `Exported` and for every `Library` scope and
false exactly for `Internal`; `NamedProcedure::is_export` delegates to the
scope, so a Library-scoped procedure reports itself as exported even though
it is not callable from modules outside its namespace. -/
theorem isExport_library_spec :
    MaterializedProcedureScope.exported.isExport = true
    ∧ (∀ ns, (MaterializedProcedureScope.library ns).isExport = true)
    ∧ (∀ p, (MaterializedProcedureScope.internal p).isExport = false)
    ∧ (∀ np : NamedProcedure, np.isExport = np.scope.isExport)
    ∧ ∀ ns c, c.first ≠ ns →
        (MaterializedProcedureScope.library ns).isValidInvocation c = false := by
  refine ⟨rfl, fun ns => rfl, fun p => rfl, fun np => rfl, fun ns c h => ?_⟩
  simp only [MaterializedProcedureScope.isValidInvocation]
  exact decide_eq_false h

/-- Witness for C9 at a concrete caller outside the namespace: caller
`a::c` cannot invoke a `Library` procedure of namespace `b`. -/
theorem isExport_library_spec_witness :
    dupPathA.first ≠ [98] ∧
      (MaterializedProcedureScope.library [98]).isValidInvocation dupPathA = false :=
  ⟨by decide, isExport_library_spec.2.2.2.2 [98] dupPathA (by decide)⟩

/-- C7: `CallSet::append` computes set union — after appending, a digest is
contained exactly when it was in the left set or is in the right set; a
second append of the same set changes nothing; and appending `a` then `b`
into an empty set yields the same set as `b` then `a`. -/
theorem callSet_append_union (a b : CallSet) (ha : a.sortedElems) (hb : b.sortedElems) :
    (∀ x, (a.append b).contains x = true ↔ a.contains x = true ∨ b.contains x = true)
    ∧ (a.append b).append b = a.append b
    ∧ (CallSet.empty.append a).append b = (CallSet.empty.append b).append a := by
  have hmem : ∀ (s t : CallSet) (x : Nat),
      x ∈ (s.append t).elems ↔ x ∈ s.elems ∨ x ∈ t.elems := fun s t x =>
    mem_foldl_sortedInsert t.elems s.elems x
  have hsorted : ∀ (s t : CallSet), s.sortedElems → (s.append t).sortedElems :=
    fun s t hs => pairwise_foldl_sortedInsert t.elems s.elems hs
  have hempty : CallSet.empty.sortedElems := List.Pairwise.nil
  refine ⟨fun x => ?_, ?_, ?_⟩
  · simpa [CallSet.contains] using hmem a b x
  · have he : ((a.append b).append b).elems = (a.append b).elems :=
      sorted_eq_of_mem_iff _ _ (hsorted _ b (hsorted a b ha)) (hsorted a b ha)
        (fun x => by
          simp only [hmem]
          tauto)
    exact congrArg CallSet.mk he
  · have he : ((CallSet.empty.append a).append b).elems
        = ((CallSet.empty.append b).append a).elems :=
      sorted_eq_of_mem_iff _ _ (hsorted _ b (hsorted _ a hempty))
        (hsorted _ a (hsorted _ b hempty))
        (fun x => by
          simp only [hmem]
          tauto)
    exact congrArg CallSet.mk he

/-- Witness for C7 at two concrete sorted call sets. -/
theorem callSet_append_union_witness :
    sampleCallSetA.sortedElems ∧ sampleCallSetB.sortedElems
    ∧ (sampleCallSetA.append sampleCallSetB).append sampleCallSetB
        = sampleCallSetA.append sampleCallSetB :=
  ⟨by decide, by decide,
    (callSet_append_union sampleCallSetA sampleCallSetB (by decide) (by decide)).2.1⟩

/-- C8: `sort_procs_into_vec` orders the map's procedures by ascending
declaration index — the sorted pair list is ordered by index, is a
permutation of the map's values, and projects to the result — and, the
declaration indices being distinct, the result is independent of the map's
iteration order. -/
theorem sortProcsIntoVec_spec :
    (∀ procMap : List (ByteStr × Nat × ProcedureAst),
      List.Pairwise (fun a b => a.1 ≤ b.1) (sortedProcPairs procMap)
      ∧ (sortedProcPairs procMap).Perm (procMap.map Prod.snd)
      ∧ sortProcsIntoVec procMap = (sortedProcPairs procMap).map Prod.snd)
    ∧ ∀ m1 m2 : List (ByteStr × Nat × ProcedureAst),
        (m1.map Prod.snd).Perm (m2.map Prod.snd) →
        List.Pairwise (fun a b => a.1 ≠ b.1) (m1.map Prod.snd) →
        sortProcsIntoVec m1 = sortProcsIntoVec m2 := by
  have hle : ∀ a b : Nat × ProcedureAst, procPairLe a b = true ↔ a.1 ≤ b.1 := by
    intro a b
    simp [procPairLe]
  have htrans : ∀ a b c : Nat × ProcedureAst, procPairLe a b = true →
      procPairLe b c = true → procPairLe a c = true := by
    intro a b c hab hbc
    rw [hle] at hab hbc ⊢
    omega
  have htotal : ∀ a b : Nat × ProcedureAst, (procPairLe a b || procPairLe b a) = true := by
    intro a b
    rcases Nat.le_total a.1 b.1 with h | h <;> simp [procPairLe, h]
  have hsorted : ∀ m : List (ByteStr × Nat × ProcedureAst),
      List.Pairwise (fun a b => a.1 ≤ b.1) (sortedProcPairs m) := fun m =>
    (List.sorted_mergeSort htrans htotal (m.map Prod.snd)).imp fun h => (hle _ _).mp h
  have hperm : ∀ m : List (ByteStr × Nat × ProcedureAst),
      (sortedProcPairs m).Perm (m.map Prod.snd) := fun m =>
    List.mergeSort_perm (m.map Prod.snd) procPairLe
  refine ⟨fun m => ⟨hsorted m, hperm m, rfl⟩, fun m1 m2 hp hnd => ?_⟩
  have hperm12 : (sortedProcPairs m1).Perm (sortedProcPairs m2) :=
    ((hperm m1).trans hp).trans (hperm m2).symm
  have hnd1 : List.Pairwise (fun a b : Nat × ProcedureAst => a.1 ≠ b.1)
      (sortedProcPairs m1) :=
    (List.Perm.pairwise_iff (fun h => Ne.symm h) (hperm m1)).mpr hnd
  have hnd2 : List.Pairwise (fun a b : Nat × ProcedureAst => a.1 ≠ b.1)
      (sortedProcPairs m2) :=
    (List.Perm.pairwise_iff (fun h => Ne.symm h) (hperm m2)).mpr
      ((List.Perm.pairwise_iff (fun h => Ne.symm h) hp).mp hnd)
  have hlt1 : List.Pairwise (fun a b : Nat × ProcedureAst => a.1 < b.1)
      (sortedProcPairs m1) :=
    ((hsorted m1).and hnd1).imp fun h => Nat.lt_of_le_of_ne h.1 h.2
  have hlt2 : List.Pairwise (fun a b : Nat × ProcedureAst => a.1 < b.1)
      (sortedProcPairs m2) :=
    ((hsorted m2).and hnd2).imp fun h => Nat.lt_of_le_of_ne h.1 h.2
  haveI : IsAntisymm (Nat × ProcedureAst) (fun a b => a.1 < b.1) :=
    ⟨fun a b h1 h2 => absurd (Nat.lt_trans h1 h2) (Nat.lt_irrefl _)⟩
  have heq : sortedProcPairs m1 = sortedProcPairs m2 :=
    List.eq_of_perm_of_sorted hperm12 hlt1 hlt2
  unfold sortProcsIntoVec
  rw [heq]

/-- Witness for C8 at the same concrete two-procedure map in its two
iteration orders. -/
theorem sortProcsIntoVec_spec_witness :
    (sampleMap1.map Prod.snd).Perm (sampleMap2.map Prod.snd)
    ∧ List.Pairwise (fun a b : Nat × ProcedureAst => a.1 ≠ b.1) (sampleMap1.map Prod.snd)
    ∧ sortProcsIntoVec sampleMap1 = sortProcsIntoVec sampleMap2 :=
  ⟨by decide, by decide,
    sortProcsIntoVec_spec.2 sampleMap1 sampleMap2 (by decide) (by decide)⟩

/-- C1: counterexample — a `ProgramAst` within every construction limit
whose import key `foo` is not its path's last segment `u64` does not
round-trip: deserialization rebuilds the import map keyed by each path's
last segment, so the result differs from the original even ignoring source
locations. -/
theorem roundtrip_import_key_counterexample :
    programAstNew [([102, 111, 111], samplePathU64)] [] [] = .ok cexProgram
    ∧ (programAstFromBytes (programAstToBytes cexProgram)).map stripProgram
        ≠ .ok (stripProgram cexProgram) := by
  constructor
  · rfl
  · decide

/-- C1 (amended): for every well-formed program and module — construction
limits respected, components within their length prefixes, procedure docs
not the empty string, and every import key equal to its path's last
segment — deserializing the serialization succeeds and yields the value
with source locations stripped (structural equality ignoring locations). -/
theorem ast_roundtrip_amended :
    (∀ p : ProgramAst, wfProgram p →
      programAstFromBytes (programAstToBytes p) = .ok (stripProgram p))
    ∧ ∀ m : ModuleAst, wfModule m →
      moduleAstFromBytes (moduleAstToBytes m) = .ok m.clearLocations :=
  ⟨programAst_roundtrip, moduleAst_roundtrip⟩

/-- Witness for C1 at a concrete well-formed program and module carrying
imports, procedures, docs and non-default locations. -/
theorem ast_roundtrip_amended_witness :
    wfProgram sampleProgram
    ∧ programAstFromBytes (programAstToBytes sampleProgram)
        = .ok (stripProgram sampleProgram)
    ∧ wfModule sampleModule
    ∧ moduleAstFromBytes (moduleAstToBytes sampleModule)
        = .ok sampleModule.clearLocations :=
  ⟨by decide, ast_roundtrip_amended.1 sampleProgram (by decide),
   by decide, ast_roundtrip_amended.2 sampleModule (by decide)⟩

/-- C2: counterexample — a body of 65,536 nodes, which exceeds
`MAX_BODY_LEN`, is not rejected by `ProgramAst::new`: the constructor
checks only the import and local-procedure limits and accepts the
oversized body unchanged. -/
theorem programAstNew_body_unchecked_counterexample :
    (List.replicate 65536 (Node.mk 0)).length > maxBodyLen
    ∧ programAstNew [] [] (List.replicate 65536 (Node.mk 0))
        = .ok ⟨[], [], CodeBody.new (List.replicate 65536 (Node.mk 0)), locDefault⟩ := by
  constructor
  · rw [List.length_replicate]
    decide
  · rfl

/-- C2 (amended): `ProgramAst::new` and `ModuleAst::new` raise the
corresponding structural error for too many imports, too many local
procedures, and (for modules) an over-long doc string, checked in that
order, and construct the value unchanged otherwise — but `ProgramAst::new`
performs no body-length check, so an over-long body is not rejected at
construction time. -/
theorem ast_construction_limits_amended :
    (∀ (imps : Imports) (procs : List ProcedureAst) (body : List Node),
      imps.length > maxImports →
      programAstNew imps procs body = .error (.tooManyImports imps.length maxLocalProcs))
    ∧ (∀ (imps : Imports) (procs : List ProcedureAst) (body : List Node),
      imps.length ≤ maxImports → procs.length > maxLocalProcs →
      programAstNew imps procs body
        = .error (.tooManyModuleProcs procs.length maxLocalProcs))
    ∧ (∀ (imps : Imports) (procs : List ProcedureAst) (body : List Node),
      imps.length ≤ maxImports → procs.length ≤ maxLocalProcs →
      programAstNew imps procs body = .ok ⟨imps, procs, CodeBody.new body, locDefault⟩)
    ∧ (∀ (imps : Imports) (procs : List ProcedureAst) (docs : Option ByteStr),
      imps.length > maxImports →
      moduleAstNew imps procs docs = .error (.tooManyImports imps.length maxLocalProcs))
    ∧ (∀ (imps : Imports) (procs : List ProcedureAst) (docs : Option ByteStr),
      imps.length ≤ maxImports → procs.length > maxLocalProcs →
      moduleAstNew imps procs docs
        = .error (.tooManyModuleProcs procs.length maxLocalProcs))
    ∧ (∀ (imps : Imports) (procs : List ProcedureAst) (d : ByteStr),
      imps.length ≤ maxImports → procs.length ≤ maxLocalProcs →
      d.length > maxDocsLen →
      moduleAstNew imps procs (some d) = .error (.moduleDocsTooLong d.length maxDocsLen))
    ∧ (∀ (imps : Imports) (procs : List ProcedureAst) (d : ByteStr),
      imps.length ≤ maxImports → procs.length ≤ maxLocalProcs →
      d.length ≤ maxDocsLen →
      moduleAstNew imps procs (some d) = .ok ⟨imps, some d, procs⟩)
    ∧ ∀ (imps : Imports) (procs : List ProcedureAst),
      imps.length ≤ maxImports → procs.length ≤ maxLocalProcs →
      moduleAstNew imps procs none = .ok ⟨imps, none, procs⟩ := by
  refine ⟨fun imps procs body h1 => ?_, fun imps procs body h1 h2 => ?_,
    fun imps procs body h1 h2 => ?_, fun imps procs docs h1 => ?_,
    fun imps procs docs h1 h2 => ?_, fun imps procs d h1 h2 h3 => ?_,
    fun imps procs d h1 h2 h3 => ?_, fun imps procs h1 h2 => ?_⟩
  · rw [programAstNew, if_pos h1]
  · rw [programAstNew, if_neg (Nat.not_lt.mpr h1), if_pos h2]
  · rw [programAstNew, if_neg (Nat.not_lt.mpr h1), if_neg (Nat.not_lt.mpr h2)]
  · simp only [moduleAstNew, if_pos h1]
  · simp only [moduleAstNew, if_neg (Nat.not_lt.mpr h1), if_pos h2]
  · simp only [moduleAstNew, if_neg (Nat.not_lt.mpr h1), if_neg (Nat.not_lt.mpr h2),
      if_pos h3]
  · simp only [moduleAstNew, if_neg (Nat.not_lt.mpr h1), if_neg (Nat.not_lt.mpr h2),
      if_neg (Nat.not_lt.mpr h3)]
  · simp only [moduleAstNew, if_neg (Nat.not_lt.mpr h1), if_neg (Nat.not_lt.mpr h2)]

/-- Witness for C2 at a concrete over-long module doc string and a concrete
in-limit program construction. -/
theorem ast_construction_limits_amended_witness :
    ([] : Imports).length ≤ maxImports ∧ ([] : List ProcedureAst).length ≤ maxLocalProcs
    ∧ (List.replicate 65536 (0 : Nat)).length > maxDocsLen
    ∧ moduleAstNew [] [] (some (List.replicate 65536 (0 : Nat)))
        = .error (.moduleDocsTooLong (List.replicate 65536 (0 : Nat)).length maxDocsLen)
    ∧ programAstNew [] [] [Node.mk 9] = .ok ⟨[], [], CodeBody.new [Node.mk 9], locDefault⟩ :=
  ⟨by decide, by decide, by rw [List.length_replicate]; decide,
    ast_construction_limits_amended.2.2.2.2.2.1 [] [] (List.replicate 65536 0)
      (by decide) (by decide) (by rw [List.length_replicate]; decide),
    ast_construction_limits_amended.2.2.1 [] [] [Node.mk 9] (by decide) (by decide)⟩

/-- C10: when the serialized import list of a program or module contains
two paths with the same last segment, `from_bytes`/`read_from` report no
error and keep only the later path under that short name, so the rebuilt
map is smaller than the serialized import count. Shown for a
serialized stream with two imports and no procedures or body. -/
theorem fromBytes_duplicate_import_collapse (p1 p2 : LibraryPath)
    (h1 : wfPath p1) (h2 : wfPath p2) (hlast : p1.last = p2.last) :
    programAstFromBytes (writeU16 2 ++ (writeLibraryPath p1 ++ (writeLibraryPath p2 ++
        (writeU16 0 ++ writeU16 0))))
      = .ok ⟨[(p2.last, p2)], [], CodeBody.new [], locDefault⟩
    ∧ moduleAstReadFrom (writeU16 0 ++ (writeU16 2 ++ (writeLibraryPath p1 ++
        (writeLibraryPath p2 ++ writeU16 0))))
      = .ok (⟨[(p2.last, p2)], none, []⟩, [])
    ∧ ([(p2.last, p2)] : Imports).length < 2 := by
  have hbatch : ∀ r, readBatch readLibraryPath 2
      (writeLibraryPath p1 ++ (writeLibraryPath p2 ++ r)) = .ok ([p1, p2], r) := by
    intro r
    have hh : ∀ x ∈ [p1, p2], ∀ rest,
        readLibraryPath (writeLibraryPath x ++ rest) = .ok (id x, rest) := by
      intro x hx rest
      rcases List.mem_cons.mp hx with rfl | hx
      · exact readLibraryPath_writeLibraryPath x h1 rest
      · rcases List.mem_cons.mp hx with rfl | hx
        · exact readLibraryPath_writeLibraryPath x h2 rest
        · exact absurd hx (List.not_mem_nil x)
    have := readBatch_join readLibraryPath writeLibraryPath id [p1, p2] hh r
    simpa using this
  have h00 : readU16 (writeU16 0) = .ok (0, []) := by
    simpa using readU16_writeU16 0 (by omega) []
  have hfold : insertImport (insertImport [] p1.last p1) p2.last p2 = [(p2.last, p2)] := by
    simp [insertImport, hlast]
  have hnewP : programAstNew [(p2.last, p2)] [] []
      = .ok ⟨[(p2.last, p2)], [], CodeBody.new [], locDefault⟩ := rfl
  have hnewM : moduleAstNew [(p2.last, p2)] [] none
      = .ok ⟨[(p2.last, p2)], none, []⟩ := rfl
  have hdocs0 : ∀ r, readDocs (writeU16 0 ++ r) = .ok (none, r) := by
    intro r
    simpa [writeDocs] using readDocs_writeDocs none trivial r
  have hb0p : ∀ s, readBatch procedureAstReadFrom 0 s = .ok ([], s) := fun s => rfl
  have hb0n : ∀ s, readBatch nodeReadFrom 0 s = .ok ([], s) := fun s => rfl
  refine ⟨?_, ?_, by simp⟩
  · simp only [programAstFromBytes, readU16_writeU16 2 (by omega), hbatch,
      List.foldl_cons, List.foldl_nil, hfold, readU16_writeU16 0 (by omega), h00,
      hb0p, hb0n, hnewP]
  · simp only [moduleAstReadFrom, hdocs0, readU16_writeU16 2 (by omega), hbatch,
      List.foldl_cons, List.foldl_nil, hfold, h00, hb0p, hnewM]

/-- Witness for C10 at the concrete paths `a::c` and `b::c`. -/
theorem fromBytes_duplicate_import_collapse_witness :
    wfPath dupPathA ∧ wfPath dupPathB ∧ dupPathA.last = dupPathB.last
    ∧ programAstFromBytes (writeU16 2 ++ (writeLibraryPath dupPathA ++
        (writeLibraryPath dupPathB ++ (writeU16 0 ++ writeU16 0))))
      = .ok ⟨[(dupPathB.last, dupPathB)], [], CodeBody.new [], locDefault⟩ :=
  ⟨by decide, by decide, by decide,
    (fromBytes_duplicate_import_collapse dupPathA dupPathB
      (by decide) (by decide) (by decide)).1⟩

end MidenVM
